import Mathlib

/-!
Shallow embedding of the duck_machine repository (src/bitfield.py and
src/cpu.py) and proofs of the specification claims about it.

Python integers are modelled as `Int`.  Python's bitwise operators on
(possibly negative) integers use two's-complement semantics with an
infinite sign extension, which is exactly the semantics of `Int.land`,
`Int.lor`, `~~~` (`Int.not`) and the `Int` shift operators available here,
so the code is translated operator-for-operator.

cpu.py imports five collaborator modules that are not part of the sources
(instr_format, register, alu, mvc, memory).  Those are modelled from the
spec, which specifies exactly the interface the core needs; each modelled
definition is marked `Modelled from the spec`.  The ALU and the decoder
are passed to `CPU.step` as parameters, since the spec leaves their
behaviour entirely to the collaborator.
-/

namespace DuckMachine

/-! ### bitfield.py -/

def WORD_SIZE : Nat := 32

/-- The two assertions executed by `BitField.__init__` in bitfield.py
(`assert 0 <= from_bit < WORD_SIZE` and `assert from_bit <= to_bit <= WORD_SIZE`),
as a boolean on arbitrary Python integers: `true` iff construction succeeds. -/
def bitFieldInitOk ( from_bit to_bit : Int) : Bool :=
  (decide (0 ≤ from_bit ∧ from_bit < (WORD_SIZE : Int))) &&
  (decide ( from_bit ≤ to_bit ∧ to_bit ≤ (WORD_SIZE : Int)))

/-- A constructed BitField: the two attributes set from the constructor
arguments.  All other attributes are pure functions of these two and are
defined below.  Successfully constructed bitfields have nonnegative bounds,
so the fields are naturals. -/
structure BitField where
  from_bit : Nat
  to_bit : Nat
deriving DecidableEq

/-- `BitField._construct_mask`: `int(width * "1", 2)`, a string of `width`
one-bits, i.e. `2 ^ width - 1`.  (For `width = 0` Python would raise on the
empty string; every constructed field has `field_width ≥ 1`, so that case is
unreachable in the program.) -/
def construct_mask (width : Nat) : Nat := 2 ^ width - 1

def BitField.field_width (bf : BitField) : Nat := 1 + bf.to_bit - bf.from_bit

/-- `self.mask = self._construct_mask(self.field_width) << from_bit` -/
def BitField.mask (bf : BitField) : Nat :=
  construct_mask bf.field_width <<< bf.from_bit

/-- `self.maskout = ~ self.mask` (Python `~` on an int is `Int.not`). -/
def BitField.maskout (bf : BitField) : Int := ~~~(bf.mask : Int)

/-- `self.comp = 1 << self.field_width` -/
def BitField.comp (bf : BitField) : Nat := 1 <<< bf.field_width

/-- `self.sign_bit = 1 << (self.field_width - 1)` -/
def BitField.sign_bit (bf : BitField) : Nat := 1 <<< (bf.field_width - 1)

/-- `BitField.insert` from bitfield.py, line for line. -/
def BitField.insert (bf : BitField) (field_value word : Int) : Int :=
  let in_place := field_value <<< (bf.from_bit : Int)
  let in_place2 := Int.land in_place (bf.mask : Int)
  let word2 := Int.land word bf.maskout
  Int.lor word2 in_place2

/-- `BitField.extract` from bitfield.py. -/
def BitField.extract (bf : BitField) (word : Int) : Int :=
  let field := Int.land word (bf.mask : Int)
  field >>> bf.from_bit

/-- `BitField.extract_signed` from bitfield.py.  (`field_width - 1` is the
same in `Nat` and in Python for every constructed field, where
`field_width ≥ 1`.) -/
def BitField.extract_signed (bf : BitField) (word : Int) : Int :=
  let unsigned := bf.extract word
  if unsigned >>> (bf.field_width - 1) = 1 then
    unsigned - (bf.comp : Int)
  else
    unsigned

/-- The assertions executed by `sign_extend` in bitfield.py
(`assert width > 1` and `assert 0 <= field < (1 << (width + 1))`):
`true` iff the call proceeds past the assertions. -/
def signExtendAsserts (field width : Int) : Bool :=
  (decide (1 < width)) &&
  (decide (0 ≤ field ∧ field < (1 : Int) <<< (width + 1)))

/-- `sign_extend` from bitfield.py (the body after the assertions). -/
def sign_extend (field width : Int) : Int :=
  let sign_bit := (1 : Int) <<< (width - 1)
  let mask := sign_bit - 1
  if Int.land field sign_bit ≠ 0 then
    Int.land field mask - sign_bit
  else
    field

/-! ### cpu.py -/

/-- Modelled from the spec: condition flags (instr_format.py, which defines
CondFlag, is not under src/).  The spec gives only what the core needs: a
small flag value with a bitwise AND and a NEVER sentinel; ALWAYS is the
initial value of the CPU condition register. -/
abbrev CondFlag := Nat

def CondFlag.NEVER : CondFlag := 0

def CondFlag.ALWAYS : CondFlag := 15

/-- Modelled from the spec: the AND of two condition-flag values used by the
predicate check. -/
def condAnd (a b : CondFlag) : CondFlag := a &&& b

/-- Modelled from the spec: the opcode enumeration (instr_format.py is not
under src/).  The spec names LOAD, STORE and HALT and treats every other
opcode uniformly; ADD, SUB, MUL and DIV stand for those others. -/
inductive OpCode where
  | HALT
  | LOAD
  | STORE
  | ADD
  | SUB
  | MUL
  | DIV
deriving DecidableEq

/-- Modelled from the spec: the decoded-instruction record produced by the
external decoder (instr_format.py is not under src/): condition predicate,
opcode, target register index, two source register indices, signed offset. -/
structure Instruction where
  cond : CondFlag
  op : OpCode
  reg_target : Fin 16
  reg_src1 : Fin 16
  reg_src2 : Fin 16
  offset : Int
deriving DecidableEq

/-- Modelled from the spec: register read (register.py is not under src/).
Register 0 is the ZeroRegister, whose get always returns zero. -/
def regGet (regs : Fin 16 → Int) (i : Fin 16) : Int :=
  if i = 0 then 0 else regs i

/-- Modelled from the spec: register write (register.py is not under src/).
Register 0 is the ZeroRegister, which ignores put. -/
def regPut (regs : Fin 16 → Int) (i : Fin 16) (v : Int) : Fin 16 → Int :=
  if i = 0 then regs else Function.update regs i v

/-- The mutable state of a `CPU` object together with the memory it is
connected to (memory.py is not under src/; the spec specifies word-addressed
get/put, modelled as a function updated pointwise). -/
structure CPUState where
  registers : Fin 16 → Int
  cc : CondFlag
  halted : Bool
  memory : Int → Int

/-- The observable actions of one step, in program order: the observer
notification emitted by `notify_all(CPUStep(...))` and each state mutation
performed afterwards. -/
inductive CPUEvent where
  | notify (pc_addr instr_word : Int) (instr : Instruction)
  | regWrite (i : Fin 16) (v : Int)
  | setCC (cc : CondFlag)
  | memWrite (addr value : Int)
  | setHalted
deriving DecidableEq

def CPUEvent.isNotify : CPUEvent → Bool
  | .notify _ _ _ => true
  | _ => false

/-- `CPU.step` from cpu.py, line for line.  The ALU (alu.py) and the decoder
(instr_format.py) are external collaborators not under src/ and are passed as
parameters: `alu` returns the (result, condition-flags) pair of
`self.alu.exec`, `decode` is `instr_format.decode`.  The function returns the
new state and the ordered list of observable actions of the step. -/
def CPU.step (alu : OpCode → Int → Int → Int × CondFlag)
    (decode : Int → Instruction) (s : CPUState) : CPUState × List CPUEvent :=
  -- Fetch
  let instr_addr := regGet s.registers 15
  let instr_word := s.memory instr_addr
  -- Decode
  let instr := decode instr_word
  -- Display the CPU state when we have decoded the instruction,
  -- before we have executed it
  let notifyEvent := CPUEvent.notify instr_addr instr_word instr
  -- Execute
  let predicate := instr.cond
  if condAnd s.cc predicate ≠ CondFlag.NEVER then
    let target := instr.reg_target
    let left := regGet s.registers instr.reg_src1
    let right := regGet s.registers instr.reg_src2 + instr.offset
    -- Step program counter after forming operands but before
    -- storing execution result
    let pc1 := regGet s.registers 15 + 1
    let regs1 := regPut s.registers 15 pc1
    let rc := alu instr.op left right
    let s1 : CPUState := { s with registers := regs1, cc := rc.2 }
    -- Load and store are special
    if instr.op = OpCode.LOAD then
      let memval := s1.memory rc.1
      ({ s1 with registers := regPut s1.registers target memval },
        [notifyEvent, .regWrite 15 pc1, .setCC rc.2, .regWrite target memval])
    else if instr.op = OpCode.STORE then
      ({ s1 with memory := Function.update s1.memory rc.1 (regGet s1.registers target) },
        [notifyEvent, .regWrite 15 pc1, .setCC rc.2,
          .memWrite rc.1 (regGet s1.registers target)])
    else if instr.op = OpCode.HALT then
      ({ s1 with halted := true },
        [notifyEvent, .regWrite 15 pc1, .setCC rc.2, .setHalted])
    else
      ({ s1 with registers := regPut s1.registers target rc.1 },
        [notifyEvent, .regWrite 15 pc1, .setCC rc.2, .regWrite target rc.1])
  else
    -- The program counter still moves forward, with no
    -- other computation
    let pc1 := regGet s.registers 15 + 1
    ({ s with registers := regPut s.registers 15 pc1 },
      [notifyEvent, .regWrite 15 pc1])

/-- The `while not self.halted` loop of `CPU.run`, with explicit fuel (the
Python loop may run forever; `fuel` bounds the number of iterations we
inspect).  When the halted flag is set the loop body never runs again. -/
def CPU.runLoop (alu : OpCode → Int → Int → Int × CondFlag)
    (decode : Int → Instruction) : Nat → CPUState → CPUState
  | 0, s => s
  | fuel + 1, s =>
    if s.halted then s
    else CPU.runLoop alu decode fuel (CPU.step alu decode s).1

/-- `CPU.run` from cpu.py: reset halted, seed the PC, then loop.  The
interactive single-step prompt is a pure debugging aid with no state effect
and is omitted. -/
def CPU.run (alu : OpCode → Int → Int → Int × CondFlag)
    (decode : Int → Instruction) (from_addr : Int) (fuel : Nat)
    (s : CPUState) : CPUState :=
  CPU.runLoop alu decode fuel
    { s with halted := false, registers := regPut s.registers 15 from_addr }

/-! ### Bridging lemmas: the Int operations of bitfield.py on nonnegative
inputs agree with the corresponding Nat bit operations. -/

theorem insert_coe (bf : BitField) (v w : ℕ) :
    bf.insert (v : Int) (w : Int)
      = ((Nat.ldiff w bf.mask ||| (v <<< bf.from_bit &&& bf.mask) : ℕ) : Int) := by
  unfold BitField.insert BitField.maskout
  rw [Int.shiftLeft_coe_nat]
  rfl

theorem extract_coe (bf : BitField) (x : ℕ) :
    bf.extract (x : Int) = (((x &&& bf.mask) >>> bf.from_bit : ℕ) : Int) := rfl

theorem land_coe (a b : ℕ) : Int.land (a : Int) (b : Int) = ((a &&& b : ℕ) : Int) := rfl

/-! ### Nat-level bit lemmas used for the BitField claims -/

theorem ldiff_or_and_shift_cancel (wd f v w : ℕ) (hv : v < 2 ^ wd) :
    ((Nat.ldiff w ((2 ^ wd - 1) <<< f) |||
        (v <<< f &&& (2 ^ wd - 1) <<< f)) &&&
        (2 ^ wd - 1) <<< f) >>> f = v := by
  apply Nat.eq_of_testBit_eq
  intro j
  simp only [Nat.testBit_shiftRight, Nat.testBit_and, Nat.testBit_or,
    Nat.testBit_ldiff, Nat.testBit_shiftLeft, Nat.testBit_two_pow_sub_one,
    Nat.le_add_right, decide_True, Bool.true_and, Nat.add_sub_cancel_left]
  rcases Nat.lt_or_ge j wd with h | h
  · simp [h]
  · have hvj : v.testBit j = false :=
      Nat.testBit_lt_two_pow (Nat.lt_of_lt_of_le hv (Nat.pow_le_pow_right (by norm_num) h))
    simp [Nat.not_lt.mpr h, hvj]

theorem ldiff_or_and_shift_outside (wd f v w i : ℕ) (hi : i < f ∨ f + wd ≤ i) :
    (Nat.ldiff w ((2 ^ wd - 1) <<< f) |||
        (v <<< f &&& (2 ^ wd - 1) <<< f)).testBit i = w.testBit i := by
  have hm : ((2 ^ wd - 1) <<< f).testBit i = false := by
    simp only [Nat.testBit_shiftLeft, Nat.testBit_two_pow_sub_one]
    rcases hi with h | h
    · simp [Nat.not_le.mpr h]
    · have hwd : ¬ i - f < wd := by omega
      simp [hwd]
  simp [Nat.testBit_or, Nat.testBit_ldiff, Nat.testBit_and, hm]

theorem and_two_pow_eq (x i : ℕ) :
    x &&& 2 ^ i = if x.testBit i then 2 ^ i else 0 := by
  apply Nat.eq_of_testBit_eq
  intro j
  rcases Decidable.em (i = j) with h | h
  · subst h
    rcases hb : x.testBit i <;> simp [hb, Nat.testBit_two_pow_self]
  · rcases hb : x.testBit i <;>
      simp [hb, Nat.testBit_two_pow_of_ne h, Nat.testBit_two_pow, h]

theorem div_top_lt_two {x wd : ℕ} (hw : 1 ≤ wd) (hx : x < 2 ^ wd) :
    x / 2 ^ (wd - 1) < 2 := by
  apply Nat.div_lt_of_lt_mul
  calc x < 2 ^ wd := hx
  _ = 2 ^ (wd - 1) * 2 := by
    rw [← Nat.pow_succ]
    congr 1
    omega

theorem testBit_top_split {x wd : ℕ} (hw : 1 ≤ wd) (hx : x < 2 ^ wd)
    (hb : x.testBit (wd - 1) = true) :
    2 ^ (wd - 1) ≤ x ∧ x % 2 ^ (wd - 1) = x - 2 ^ (wd - 1) := by
  have hdiv := div_top_lt_two hw hx
  have hmod : x / 2 ^ (wd - 1) % 2 = 1 := by
    rw [Nat.testBit_to_div_mod] at hb
    exact of_decide_eq_true hb
  have hsum := Nat.div_add_mod x (2 ^ (wd - 1))
  have hd1 : x / 2 ^ (wd - 1) = 1 := by
    generalize hq : x / 2 ^ (wd - 1) = q at hdiv hmod
    omega
  rw [hd1, Nat.mul_one] at hsum
  omega

/-- `sign_extend` at a nonnegative field: it tests the field's bit
`width - 1` and, when set, keeps the low `width - 1` bits and subtracts the
sign bit. -/
theorem sign_extend_cast (width : ℕ) (hw : 1 ≤ width) (field : ℕ) :
    sign_extend (field : Int) (width : Int) =
      if field.testBit (width - 1)
        then ((field % 2 ^ (width - 1) : ℕ) : Int) - ((2 ^ (width - 1) : ℕ) : Int)
        else (field : Int) := by
  simp only [sign_extend]
  have h1 : ((width : Int) - 1) = ((width - 1 : ℕ) : Int) := by omega
  rw [h1, Int.one_shiftLeft]
  have h2 : ((2 ^ (width - 1) : ℕ) : Int) - 1 = ((2 ^ (width - 1) - 1 : ℕ) : Int) := by
    have : 1 ≤ 2 ^ (width - 1) := Nat.one_le_two_pow
    omega
  rw [h2, land_coe, land_coe, and_two_pow_eq, Nat.and_pow_two_sub_one_eq_mod]
  rcases hb : field.testBit (width - 1) <;> simp [hb]

/-- Once the halted flag is set, the run loop never executes another step. -/
theorem runLoop_halted (alu : OpCode → Int → Int → Int × CondFlag)
    (decode : Int → Instruction) (s : CPUState) (h : s.halted = true) :
    ∀ fuel : Nat, CPU.runLoop alu decode fuel s = s := by
  intro fuel
  cases fuel with
  | zero => rfl
  | succ n => simp [CPU.runLoop, h]

/-! ### Claims -/

/-- Claim C1: for every BitField with valid bounds 0 ≤ from_bit ≤ to_bit ≤ 31,
every field value v with 0 ≤ v < 2 ^ field_width and every 32-bit word w,
`extract (insert v w) = v`. -/
theorem extract_insert_roundtrip (f t : ℕ) (hft : f ≤ t) (ht : t ≤ 31) (v w : ℕ)
    (hv : v < 2 ^ (BitField.mk f t).field_width) (hw : w < 2 ^ 32) :
    (BitField.mk f t).extract ((BitField.mk f t).insert (v : Int) (w : Int)) = (v : Int) := by
  rw [insert_coe, extract_coe, Nat.cast_inj]
  simp only [BitField.mask, construct_mask, BitField.field_width] at hv ⊢
  exact ldiff_or_and_shift_cancel _ _ _ _ hv

/-- Claim C1 witness: the roundtrip at the concrete field bits 4..7 of the
source docstring, v = 15, w = 9. -/
theorem extract_insert_roundtrip_witness :
    (BitField.mk 4 7).extract ((BitField.mk 4 7).insert ((15 : ℕ) : Int) ((9 : ℕ) : Int))
      = ((15 : ℕ) : Int) :=
  extract_insert_roundtrip 4 7 (by decide) (by decide) 15 9 (by decide) (by decide)

/-- Claim C2 (code bug): `BitField.__init__` asserts `to_bit <= WORD_SIZE`
with WORD_SIZE = 32, so construction with to_bit = 32 succeeds, although the
constructor docstring says bit 31 is the high-order bit and the claim says
any to_bit > 31 must fail.  Construction with from_bit = 5, to_bit = 2 does
fail as claimed. -/
theorem init_accepts_to_bit_32 :
    bitFieldInitOk 0 32 = true ∧ bitFieldInitOk 5 2 = false := by decide

/-- Claim C3: in a predicate-passing step of a non-LOAD/STORE/HALT
instruction whose target register index is 15, the PC is incremented after
operand formation (the operands are read from the pre-step registers) and
the ALU result then overwrites the incremented value: the step ends with PC
equal to the ALU result. -/
theorem pc_target_jump (alu : OpCode → Int → Int → Int × CondFlag)
    (decode : Int → Instruction) (s : CPUState) (instr : Instruction)
    (hinstr : decode (s.memory (regGet s.registers 15)) = instr)
    (hpred : condAnd s.cc instr.cond ≠ CondFlag.NEVER)
    (hL : instr.op ≠ OpCode.LOAD) (hS : instr.op ≠ OpCode.STORE)
    (hH : instr.op ≠ OpCode.HALT) (htgt : instr.reg_target = 15) :
    regGet (CPU.step alu decode s).1.registers 15
      = (alu instr.op (regGet s.registers instr.reg_src1)
          (regGet s.registers instr.reg_src2 + instr.offset)).1 := by
  simp only [CPU.step, hinstr, if_pos hpred, if_neg hL, if_neg hS, if_neg hH, htgt]
  simp [regGet, regPut, Function.update_same]

/-- Claim C3 witness: an ADD targeting register 15 with r1 = 10, r2 = 20,
offset 5 and an adding ALU jumps to 35. -/
theorem pc_target_jump_witness :
    regGet (CPU.step (fun _ l r => (l + r, CondFlag.ALWAYS))
        (fun _ => Instruction.mk CondFlag.ALWAYS OpCode.ADD 15 1 2 5)
        (CPUState.mk (fun i => if i = 1 then 10 else if i = 2 then 20 else 0)
          CondFlag.ALWAYS false (fun _ => 0))).1.registers 15 = 35 := by
  have h := pc_target_jump (fun _ l r => (l + r, CondFlag.ALWAYS))
      (fun _ => Instruction.mk CondFlag.ALWAYS OpCode.ADD 15 1 2 5)
      (CPUState.mk (fun i => if i = 1 then 10 else if i = 2 then 20 else 0)
        CondFlag.ALWAYS false (fun _ => 0))
      (Instruction.mk CondFlag.ALWAYS OpCode.ADD 15 1 2 5)
      rfl (by decide) (by decide) (by decide) (by decide) rfl
  rw [h]
  decide

/-- Claim C4: when the instruction's condition ANDed with the current
condition flags is the NEVER sentinel, the step changes only the program
counter, which advances by exactly 1; all other registers, the condition
flags, the halted flag and the memory are unchanged, and the step's only
observable actions are the notification and the PC write (this holds for
every ALU, so no ALU result is used). -/
theorem predicate_never_frame (alu : OpCode → Int → Int → Int × CondFlag)
    (decode : Int → Instruction) (s : CPUState)
    (hpred : condAnd s.cc (decode (s.memory (regGet s.registers 15))).cond
      = CondFlag.NEVER) :
    (CPU.step alu decode s).1.registers
        = regPut s.registers 15 (regGet s.registers 15 + 1)
    ∧ regGet (CPU.step alu decode s).1.registers 15 = regGet s.registers 15 + 1
    ∧ (∀ i : Fin 16, i ≠ 15 → (CPU.step alu decode s).1.registers i = s.registers i)
    ∧ (CPU.step alu decode s).1.cc = s.cc
    ∧ (CPU.step alu decode s).1.halted = s.halted
    ∧ (CPU.step alu decode s).1.memory = s.memory
    ∧ (CPU.step alu decode s).2
        = [CPUEvent.notify (regGet s.registers 15)
            (s.memory (regGet s.registers 15))
            (decode (s.memory (regGet s.registers 15))),
           CPUEvent.regWrite 15 (regGet s.registers 15 + 1)] := by
  have hnot : ¬ condAnd s.cc (decode (s.memory (regGet s.registers 15))).cond
      ≠ CondFlag.NEVER := by simp [hpred]
  simp only [CPU.step, if_neg hnot]
  refine ⟨by trivial, ?_, ?_, by trivial, by trivial, by trivial, by trivial⟩
  · simp [regGet, regPut, Function.update_same]
  · intro i hi
    simp [regPut, Function.update_noteq hi]

/-- Claim C4 witness: a NEVER-predicated instruction in a zeroed machine
leaves flags and halted alone, moves PC from 0 to 1 and emits only the
notification and the PC write. -/
theorem predicate_never_frame_witness :
    (CPU.step (fun _ _ _ => ((0 : Int), CondFlag.NEVER))
        (fun _ => Instruction.mk CondFlag.NEVER OpCode.ADD 3 1 2 0)
        (CPUState.mk (fun _ => 0) CondFlag.ALWAYS false (fun _ => 0))).1.cc
        = CondFlag.ALWAYS
    ∧ (CPU.step (fun _ _ _ => ((0 : Int), CondFlag.NEVER))
        (fun _ => Instruction.mk CondFlag.NEVER OpCode.ADD 3 1 2 0)
        (CPUState.mk (fun _ => 0) CondFlag.ALWAYS false (fun _ => 0))).1.halted = false
    ∧ regGet (CPU.step (fun _ _ _ => ((0 : Int), CondFlag.NEVER))
        (fun _ => Instruction.mk CondFlag.NEVER OpCode.ADD 3 1 2 0)
        (CPUState.mk (fun _ => 0) CondFlag.ALWAYS false (fun _ => 0))).1.registers 15 = 1
    ∧ (CPU.step (fun _ _ _ => ((0 : Int), CondFlag.NEVER))
        (fun _ => Instruction.mk CondFlag.NEVER OpCode.ADD 3 1 2 0)
        (CPUState.mk (fun _ => 0) CondFlag.ALWAYS false (fun _ => 0))).2
        = [CPUEvent.notify 0 0 (Instruction.mk CondFlag.NEVER OpCode.ADD 3 1 2 0),
           CPUEvent.regWrite 15 1] := by
  have h := predicate_never_frame (fun _ _ _ => ((0 : Int), CondFlag.NEVER))
      (fun _ => Instruction.mk CondFlag.NEVER OpCode.ADD 3 1 2 0)
      (CPUState.mk (fun _ => 0) CondFlag.ALWAYS false (fun _ => 0)) (by decide)
  exact ⟨h.2.2.2.1, h.2.2.2.2.1, h.2.1.trans (by decide), h.2.2.2.2.2.2.trans (by decide)⟩

/-- Claim C5 counterexample: a predicate-passing HALT whose target register
index is 15 does set halted, but its target register (the PC) is changed by
the PC pre-increment, so "performs no register write (the target register is
unchanged)" is false as stated. -/
theorem halt_target_pc_counterexample :
    (CPU.step (fun _ _ _ => ((0 : Int), CondFlag.ALWAYS))
        (fun _ => Instruction.mk CondFlag.ALWAYS OpCode.HALT 15 1 2 0)
        (CPUState.mk (fun _ => 100) CondFlag.ALWAYS false (fun _ => 0))).1.halted = true
    ∧ (CPU.step (fun _ _ _ => ((0 : Int), CondFlag.ALWAYS))
        (fun _ => Instruction.mk CondFlag.ALWAYS OpCode.HALT 15 1 2 0)
        (CPUState.mk (fun _ => 100) CondFlag.ALWAYS false (fun _ => 0))).1.registers
          (Instruction.mk CondFlag.ALWAYS OpCode.HALT 15 1 2 0).reg_target
      ≠ (CPUState.mk (fun _ => 100) CondFlag.ALWAYS false (fun _ => 0)).registers
          (Instruction.mk CondFlag.ALWAYS OpCode.HALT 15 1 2 0).reg_target := by
  decide

/-- Claim C5 as amended: a predicate-passing HALT sets halted, performs no
commit-phase register write — every register other than the PC is unchanged,
and the target register is unchanged whenever it is not the PC, which
advances by 1 — leaves memory unchanged, and the run loop performs no
further step after this one. -/
theorem halt_step (alu : OpCode → Int → Int → Int × CondFlag)
    (decode : Int → Instruction) (s : CPUState) (instr : Instruction)
    (hinstr : decode (s.memory (regGet s.registers 15)) = instr)
    (hpred : condAnd s.cc instr.cond ≠ CondFlag.NEVER)
    (hop : instr.op = OpCode.HALT) :
    (CPU.step alu decode s).1.halted = true
    ∧ (∀ i : Fin 16, i ≠ 15 → (CPU.step alu decode s).1.registers i = s.registers i)
    ∧ (instr.reg_target ≠ 15 →
        (CPU.step alu decode s).1.registers instr.reg_target
          = s.registers instr.reg_target)
    ∧ (CPU.step alu decode s).1.memory = s.memory
    ∧ regGet (CPU.step alu decode s).1.registers 15 = regGet s.registers 15 + 1
    ∧ (∀ fuel : Nat,
        CPU.runLoop alu decode fuel (CPU.step alu decode s).1
          = (CPU.step alu decode s).1) := by
  have hL : instr.op ≠ OpCode.LOAD := by simp [hop]
  have hS : instr.op ≠ OpCode.STORE := by simp [hop]
  have hstep : (CPU.step alu decode s).1
      = { s with registers := regPut s.registers 15 (regGet s.registers 15 + 1),
                 cc := (alu instr.op (regGet s.registers instr.reg_src1)
                   (regGet s.registers instr.reg_src2 + instr.offset)).2,
                 halted := true } := by
    simp only [CPU.step, hinstr, if_pos hpred, if_neg hL, if_neg hS, if_pos hop]
  refine ⟨by rw [hstep], ?_, ?_, by rw [hstep], ?_, ?_⟩
  · intro i hi
    rw [hstep]
    simp [regPut, Function.update_noteq hi]
  · intro ht
    rw [hstep]
    simp [regPut, Function.update_noteq ht]
  · rw [hstep]
    simp [regGet, regPut, Function.update_same]
  · intro fuel
    apply runLoop_halted
    rw [hstep]

/-- Claim C5 witness: a HALT targeting r3 halts the machine, leaves r3 at 7,
advances PC from 0 to 1, and the run loop does nothing more. -/
theorem halt_step_witness :
    (CPU.step (fun _ _ _ => ((0 : Int), CondFlag.ALWAYS))
        (fun _ => Instruction.mk CondFlag.ALWAYS OpCode.HALT 3 1 2 0)
        (CPUState.mk (fun i => if i = 3 then 7 else 0) CondFlag.ALWAYS false
          (fun _ => 0))).1.halted = true
    ∧ (CPU.step (fun _ _ _ => ((0 : Int), CondFlag.ALWAYS))
        (fun _ => Instruction.mk CondFlag.ALWAYS OpCode.HALT 3 1 2 0)
        (CPUState.mk (fun i => if i = 3 then 7 else 0) CondFlag.ALWAYS false
          (fun _ => 0))).1.registers 3 = 7
    ∧ regGet (CPU.step (fun _ _ _ => ((0 : Int), CondFlag.ALWAYS))
        (fun _ => Instruction.mk CondFlag.ALWAYS OpCode.HALT 3 1 2 0)
        (CPUState.mk (fun i => if i = 3 then 7 else 0) CondFlag.ALWAYS false
          (fun _ => 0))).1.registers 15 = 1
    ∧ CPU.runLoop (fun _ _ _ => ((0 : Int), CondFlag.ALWAYS))
        (fun _ => Instruction.mk CondFlag.ALWAYS OpCode.HALT 3 1 2 0) 5
        (CPU.step (fun _ _ _ => ((0 : Int), CondFlag.ALWAYS))
          (fun _ => Instruction.mk CondFlag.ALWAYS OpCode.HALT 3 1 2 0)
          (CPUState.mk (fun i => if i = 3 then 7 else 0) CondFlag.ALWAYS false
            (fun _ => 0))).1
        = (CPU.step (fun _ _ _ => ((0 : Int), CondFlag.ALWAYS))
          (fun _ => Instruction.mk CondFlag.ALWAYS OpCode.HALT 3 1 2 0)
          (CPUState.mk (fun i => if i = 3 then 7 else 0) CondFlag.ALWAYS false
            (fun _ => 0))).1 := by
  have h := halt_step (fun _ _ _ => ((0 : Int), CondFlag.ALWAYS))
      (fun _ => Instruction.mk CondFlag.ALWAYS OpCode.HALT 3 1 2 0)
      (CPUState.mk (fun i => if i = 3 then 7 else 0) CondFlag.ALWAYS false (fun _ => 0))
      (Instruction.mk CondFlag.ALWAYS OpCode.HALT 3 1 2 0)
      rfl (by decide) rfl
  exact ⟨h.1, (h.2.2.1 (by decide)).trans (by decide), h.2.2.2.2.1.trans (by decide),
    h.2.2.2.2.2 5⟩

/-- Claim C6 counterexample: a STORE of r1 = 42 to address 7 followed by a
LOAD from address 7 into register 0 — a different register — yields 0, not
42, because register 0 is the always-zero register, so "a subsequent LOAD
from that address into a different register yields the same value" is false
as stated. -/
theorem load_into_zero_register_counterexample :
    (CPU.step (fun _ _ _ => ((7 : Int), CondFlag.ALWAYS))
        (fun _ => Instruction.mk CondFlag.ALWAYS OpCode.STORE 1 2 3 0)
        (CPUState.mk (fun i => if i = 1 then 42 else 0) CondFlag.ALWAYS false
          (fun _ => 0))).1.memory 7 = 42
    ∧ regGet (CPU.step (fun _ _ _ => ((7 : Int), CondFlag.ALWAYS))
        (fun _ => Instruction.mk CondFlag.ALWAYS OpCode.LOAD 0 2 3 0)
        (CPU.step (fun _ _ _ => ((7 : Int), CondFlag.ALWAYS))
          (fun _ => Instruction.mk CondFlag.ALWAYS OpCode.STORE 1 2 3 0)
          (CPUState.mk (fun i => if i = 1 then 42 else 0) CondFlag.ALWAYS false
            (fun _ => 0))).1).1.registers 0 = 0
    ∧ ((0 : Int) ≠ 42) := by
  decide

/-- Claim C6 as amended: a predicate-passing STORE writes the target
register's value at commit time (after the PC pre-increment) to memory at
the ALU-result address, not the result itself; and a subsequent
predicate-passing LOAD whose address computation yields that same address,
into a register other than the always-zero register 0, yields that same
value. -/
theorem store_then_load (alu : OpCode → Int → Int → Int × CondFlag)
    (decode : Int → Instruction) (s : CPUState) (instr : Instruction)
    (hinstr : decode (s.memory (regGet s.registers 15)) = instr)
    (hpred : condAnd s.cc instr.cond ≠ CondFlag.NEVER)
    (hop : instr.op = OpCode.STORE) :
    (CPU.step alu decode s).1.memory
        (alu instr.op (regGet s.registers instr.reg_src1)
          (regGet s.registers instr.reg_src2 + instr.offset)).1
      = regGet (regPut s.registers 15 (regGet s.registers 15 + 1)) instr.reg_target
    ∧ (∀ (alu2 : OpCode → Int → Int → Int × CondFlag)
        (decode2 : Int → Instruction) (instr2 : Instruction),
        decode2 ((CPU.step alu decode s).1.memory
            (regGet (CPU.step alu decode s).1.registers 15)) = instr2 →
        condAnd (CPU.step alu decode s).1.cc instr2.cond ≠ CondFlag.NEVER →
        instr2.op = OpCode.LOAD →
        (alu2 instr2.op (regGet (CPU.step alu decode s).1.registers instr2.reg_src1)
            (regGet (CPU.step alu decode s).1.registers instr2.reg_src2 + instr2.offset)).1
          = (alu instr.op (regGet s.registers instr.reg_src1)
              (regGet s.registers instr.reg_src2 + instr.offset)).1 →
        instr2.reg_target ≠ 0 →
        regGet (CPU.step alu2 decode2 (CPU.step alu decode s).1).1.registers
            instr2.reg_target
          = regGet (regPut s.registers 15 (regGet s.registers 15 + 1))
              instr.reg_target) := by
  have hL : instr.op ≠ OpCode.LOAD := by simp [hop]
  have hstep : (CPU.step alu decode s).1
      = { s with registers := regPut s.registers 15 (regGet s.registers 15 + 1),
                 cc := (alu instr.op (regGet s.registers instr.reg_src1)
                   (regGet s.registers instr.reg_src2 + instr.offset)).2,
                 memory := Function.update s.memory
                   (alu instr.op (regGet s.registers instr.reg_src1)
                     (regGet s.registers instr.reg_src2 + instr.offset)).1
                   (regGet (regPut s.registers 15 (regGet s.registers 15 + 1))
                     instr.reg_target) } := by
    simp only [CPU.step, hinstr, if_pos hpred, if_neg hL, if_pos hop]
  have hmem : (CPU.step alu decode s).1.memory
      (alu instr.op (regGet s.registers instr.reg_src1)
        (regGet s.registers instr.reg_src2 + instr.offset)).1
      = regGet (regPut s.registers 15 (regGet s.registers 15 + 1)) instr.reg_target := by
    rw [hstep]
    simp [Function.update_same]
  refine ⟨hmem, ?_⟩
  intro alu2 decode2 instr2 hinstr2 hpred2 hop2 haddr ht2
  set s2 := (CPU.step alu decode s).1 with hs2
  have hstep2 : (CPU.step alu2 decode2 s2).1.registers
      = regPut (regPut s2.registers 15 (regGet s2.registers 15 + 1))
          instr2.reg_target
          (s2.memory
            (alu2 instr2.op (regGet s2.registers instr2.reg_src1)
              (regGet s2.registers instr2.reg_src2 + instr2.offset)).1) := by
    simp only [CPU.step, hinstr2, if_pos hpred2, if_pos hop2]
  rw [hstep2, haddr, hmem]
  simp [regGet, regPut, ht2, Function.update_same]

/-- Claim C6 witness: storing r1 = 42 at address 7 and loading address 7
into r4 yields 42 in r4. -/
theorem store_then_load_witness :
    regGet (CPU.step (fun _ _ _ => ((7 : Int), CondFlag.ALWAYS))
        (fun _ => Instruction.mk CondFlag.ALWAYS OpCode.LOAD 4 2 3 0)
        (CPU.step (fun _ _ _ => ((7 : Int), CondFlag.ALWAYS))
          (fun _ => Instruction.mk CondFlag.ALWAYS OpCode.STORE 1 2 3 0)
          (CPUState.mk (fun i => if i = 1 then 42 else 0) CondFlag.ALWAYS false
            (fun _ => 0))).1).1.registers 4 = 42 := by
  have h := (store_then_load (fun _ _ _ => ((7 : Int), CondFlag.ALWAYS))
      (fun _ => Instruction.mk CondFlag.ALWAYS OpCode.STORE 1 2 3 0)
      (CPUState.mk (fun i => if i = 1 then 42 else 0) CondFlag.ALWAYS false (fun _ => 0))
      (Instruction.mk CondFlag.ALWAYS OpCode.STORE 1 2 3 0)
      rfl (by decide) rfl).2
      (fun _ _ _ => ((7 : Int), CondFlag.ALWAYS))
      (fun _ => Instruction.mk CondFlag.ALWAYS OpCode.LOAD 4 2 3 0)
      (Instruction.mk CondFlag.ALWAYS OpCode.LOAD 4 2 3 0)
      rfl (by decide) rfl rfl (by decide)
  exact h.trans (by decide)

/-- Claim C7: every step's first observable action is the single observer
notification carrying the PC address, the raw fetched word and the decoded
instruction; exactly one notification occurs per step, before any execution
effect and independently of the predicate outcome. -/
theorem notify_first_unconditional (alu : OpCode → Int → Int → Int × CondFlag)
    (decode : Int → Instruction) (s : CPUState) :
    (CPU.step alu decode s).2.head?
      = some (CPUEvent.notify (regGet s.registers 15)
          (s.memory (regGet s.registers 15))
          (decode (s.memory (regGet s.registers 15))))
    ∧ (CPU.step alu decode s).2.countP (fun e => e.isNotify) = 1 := by
  simp only [CPU.step]
  split
  · split
    · simp [List.countP, List.countP.go, CPUEvent.isNotify]
    · split
      · simp [List.countP, List.countP.go, CPUEvent.isNotify]
      · split
        · simp [List.countP, List.countP.go, CPUEvent.isNotify]
        · simp [List.countP, List.countP.go, CPUEvent.isNotify]
  · simp [List.countP, List.countP.go, CPUEvent.isNotify]

/-- Claim C8: for every BitField with valid bounds, every field value and
every 32-bit word, `insert` leaves every bit of the word outside the
positions from_bit..to_bit unchanged. -/
theorem insert_outside_unchanged (f t : ℕ) (hft : f ≤ t) (ht : t ≤ 31) (v w : ℕ)
    (hv : v < 2 ^ (BitField.mk f t).field_width) (hw : w < 2 ^ 32)
    (i : ℕ) (hi : i < f ∨ t < i) :
    ((BitField.mk f t).insert (v : Int) (w : Int)).testBit i = (w : Int).testBit i := by
  rw [insert_coe]
  show Nat.testBit _ i = Nat.testBit w i
  simp only [BitField.mask, construct_mask, BitField.field_width]
  exact ldiff_or_and_shift_outside _ _ _ _ _ (by omega)

/-- Claim C8 witness: inserting v = 3 into bits 1..2 of w = 9 leaves bit 0
unchanged. -/
theorem insert_outside_unchanged_witness :
    ((BitField.mk 1 2).insert ((3 : ℕ) : Int) ((9 : ℕ) : Int)).testBit 0
      = ((9 : ℕ) : Int).testBit 0 :=
  insert_outside_unchanged 1 2 (by decide) (by decide) 3 9 (by decide) (by decide)
    0 (by decide)

/-- Claim C9: for width > 1 and 0 ≤ field < 2 ^ width, `sign_extend` returns
field − 2 ^ width when bit width−1 of field is set and field unchanged
otherwise, agreeing with `BitField.extract_signed` on a field of the same
width; and for width ≤ 1 the `sign_extend` assertions fail. -/
theorem sign_extend_signed_value :
    (∀ width : ℕ, 1 < width → ∀ field : ℕ, field < 2 ^ width →
      (sign_extend (field : Int) (width : Int)
          = if field.testBit (width - 1) then (field : Int) - 2 ^ width else (field : Int))
      ∧ (BitField.mk 0 (width - 1)).extract_signed (field : Int)
          = sign_extend (field : Int) (width : Int))
    ∧ (∀ width : Int, width ≤ 1 → ∀ field : Int, signExtendAsserts field width = false) := by
  constructor
  · intro width hw field hf
    have hw1 : 1 ≤ width := by omega
    have hpowZ : (2 : Int) ^ width = ((2 ^ (width - 1) : ℕ) : Int) * 2 := by
      push_cast
      rw [← pow_succ]
      congr 1
      omega
    have hmain : sign_extend (field : Int) (width : Int)
        = if field.testBit (width - 1) then (field : Int) - 2 ^ width else (field : Int) := by
      rw [sign_extend_cast width hw1 field]
      by_cases hb : field.testBit (width - 1) = true
      · rw [if_pos hb, if_pos hb]
        have hsplit := testBit_top_split hw1 hf hb
        have h1 : ((field % 2 ^ (width - 1) : ℕ) : Int)
            = ((field - 2 ^ (width - 1) : ℕ) : Int) := by rw [hsplit.2]
        rw [h1, hpowZ]
        omega
      · rw [if_neg hb, if_neg hb]
    refine ⟨hmain, ?_⟩
    have hfw : (BitField.mk 0 (width - 1)).field_width = width := by
      simp only [BitField.field_width]
      omega
    have hmask : (BitField.mk 0 (width - 1)).mask = 2 ^ width - 1 := by
      simp [BitField.mask, construct_mask, hfw]
    have hextract : (BitField.mk 0 (width - 1)).extract (field : Int) = (field : Int) := by
      rw [extract_coe, hmask]
      simp [Nat.and_pow_two_sub_one_eq_mod, Nat.mod_eq_of_lt hf]
    have hcond : (((field : Int) >>> (width - 1) : Int) = 1)
        ↔ (field.testBit (width - 1) = true) := by
      have hsh : ((field : Int) >>> (width - 1)) = ((field >>> (width - 1) : ℕ) : Int) := rfl
      rw [hsh, show (1 : Int) = ((1 : ℕ) : Int) from rfl, Nat.cast_inj,
        Nat.shiftRight_eq_div_pow, Nat.testBit_to_div_mod]
      have hdiv := div_top_lt_two hw1 hf
      constructor
      · intro h
        rw [h]
        rfl
      · intro h
        have := of_decide_eq_true h
        generalize hq : field / 2 ^ (width - 1) = q at hdiv this
        omega
    have hcomp : ((BitField.mk 0 (width - 1)).comp : Int) = (2 : Int) ^ width := by
      simp only [BitField.comp, hfw, Nat.shiftLeft_eq, Nat.one_mul]
      push_cast
      rfl
    simp only [BitField.extract_signed, hextract, hfw, hcomp, hmain]
    by_cases hb : field.testBit (width - 1) = true
    · rw [if_pos (hcond.mpr hb), if_pos hb]
    · rw [if_neg (fun h => hb (hcond.mp h)), if_neg hb]
  · intro width hw field
    simp [signExtendAsserts, Int.not_lt.mpr hw]

/-- Claim C9 witness: 0b111 at width 3 yields −1 (and agrees with
`extract_signed` on a 3-bit field), 0b0111 at width 4 yields 7, and the
assertions fail at width 1. -/
theorem sign_extend_signed_value_witness :
    sign_extend (7 : Int) (3 : Int) = -1
    ∧ sign_extend (7 : Int) (4 : Int) = 7
    ∧ (BitField.mk 0 2).extract_signed (7 : Int) = sign_extend (7 : Int) (3 : Int)
    ∧ signExtendAsserts (7 : Int) (1 : Int) = false := by
  have h3 := sign_extend_signed_value.1 3 (by decide) 7 (by decide)
  have h4 := sign_extend_signed_value.1 4 (by decide) 7 (by decide)
  exact ⟨h3.1.trans (by decide), h4.1.trans (by decide), h3.2,
    sign_extend_signed_value.2 1 (by decide) 7⟩

/-- Claim C10: for every width > 1, `sign_extend` accepts without assertion
failure any field with 0 ≤ field < 2 ^ (width + 1) — one bit wider than the
declared width — and for such a field with bit width−1 clear it returns the
field unchanged, not reduced modulo 2 ^ width. -/
theorem sign_extend_overwide (width : ℕ) (hw : 1 < width) (field : ℕ)
    (hf : field < 2 ^ (width + 1)) :
    signExtendAsserts (field : Int) (width : Int) = true
    ∧ (field.testBit (width - 1) = false →
        sign_extend (field : Int) (width : Int) = (field : Int)) := by
  constructor
  · simp only [signExtendAsserts, Bool.and_eq_true, decide_eq_true_eq]
    refine ⟨by exact_mod_cast hw, by positivity, ?_⟩
    have h1 : ((width : Int) + 1) = ((width + 1 : ℕ) : Int) := by push_cast; ring
    rw [h1, Int.one_shiftLeft]
    exact_mod_cast hf
  · intro hb
    rw [sign_extend_cast width (by omega) field, if_neg (by simp [hb])]

/-- Claim C10 witness: at width 2, field 4 = 2 ^ 2 passes the assertions and
is returned unchanged (4, not 4 mod 4 = 0) since its bit 1 is clear. -/
theorem sign_extend_overwide_witness :
    signExtendAsserts (4 : Int) (2 : Int) = true
    ∧ sign_extend (4 : Int) (2 : Int) = (4 : Int) :=
  ⟨(sign_extend_overwide 2 (by decide) 4 (by decide)).1,
   (sign_extend_overwide 2 (by decide) 4 (by decide)).2 (by decide)⟩

end DuckMachine
